import Mathlib

/-!
Shallow embedding of the number-processing pipeline (`src/main15.cpp`).

Strings are modelled as lists of characters (`Str`).  The C++ `int` is
modelled as `Int`; `std::stoi` and `operator>>` extraction reject values
outside the 32-bit range (`std::stoi` throws `out_of_range`, extraction
sets `failbit`), which the embedding mirrors with an explicit range check.
File I/O is modelled by a function from file names to optional contents
(`none` means the file cannot be opened).  Observer side effects are
modelled as an explicit event trace; `std::cout` lines are collected in
output lists.
-/

abbrev Str := List Char

/-- Whitespace as recognised by stream extraction / `strtol` under the
default locale: space, tab, newline, vertical tab, form feed, carriage
return. -/
def isSpace (c : Char) : Bool :=
  c == ' ' || c == '\t' || c == '\n' || c == '\x0b' || c == '\x0c' || c == '\r'

/-- Value of a list of decimal digit characters, most significant first. -/
def digitsVal (ds : Str) : Nat :=
  ds.foldl (fun acc c => 10 * acc + (c.toNat - 48)) 0

/-- Smallest value of the host 32-bit `int`. -/
def intMin : Int := -2147483648

/-- Largest value of the host 32-bit `int`. -/
def intMax : Int := 2147483647

/-- Core of one `in >> n` extraction (and of `std::stoi`) after leading
whitespace has been skipped: an optional sign, then a maximal run of
decimal digits; no digits or an out-of-`int`-range value is a failure.
On success it returns the parsed value and the unconsumed remainder. -/
def extractIntCore : Str → Option (Int × Str)
  | [] => none
  | c :: cs =>
    let sgn : Int := if c = '-' then -1 else 1
    let s2 := if c = '-' ∨ c = '+' then cs else c :: cs
    let ds := s2.takeWhile Char.isDigit
    if ds = [] then none
    else
      let v := sgn * (digitsVal ds : Int)
      if v < intMin ∨ intMax < v then none
      else some (v, s2.drop ds.length)

/-- One formatted extraction `in >> n` for `int`: skip whitespace, then
parse a decimal integer.  `none` models the stream entering a failed
state (end of input, non-numeric data, or overflow). -/
def extractInt (s : Str) : Option (Int × Str) :=
  extractIntCore (s.dropWhile isSpace)

/-- Model of `std::stoi` on the parameter string: `none` models the
`std::invalid_argument` / `std::out_of_range` exceptions (both caught by
the `catch (...)` in the `GT` creator). -/
def stoi (s : Str) : Option Int :=
  (extractInt s).map Prod.fst

/-- Fuel-indexed extraction loop `while (in >> n) numbers.push_back(n);`.
Each successful extraction consumes at least one character, so fuel equal
to the length of the input suffices. -/
def readLoop : Nat → Str → List Int
  | 0, _ => []
  | fuel + 1, s =>
    match extractInt s with
    | none => []
    | some (n, r) => n :: readLoop fuel r

/-- All integers extracted from the file contents, in file order, stopping
at the first failed extraction. -/
def extractNumbers (s : Str) : List Int :=
  readLoop (s.length + 1) s

/-- Diagnostic printed by `FileNumberReader::read_numbers` when the file
cannot be opened. -/
def fileNotFoundMsg (filename : Str) : Str :=
  "Error: File not found: ".toList ++ filename

/-- `FileNumberReader::read_numbers`.  The filesystem is modelled by
`fs : Str → Option Str` giving the contents of each openable file.
Returns the lines printed and the extracted numbers: on an unopenable
file it prints the diagnostic and returns the empty sequence (the
original code does not fail). -/
def FileNumberReader.read_numbers (fs : Str → Option Str) (filename : Str) :
    List Str × List Int :=
  match fs filename with
  | none => ([fileNotFoundMsg filename], [])
  | some content => ([], extractNumbers content)

/-- `EvenFilter`: stateless. -/
structure EvenFilter where

/-- `EvenFilter::keep`: `number % 2 == 0`, with C++'s truncated remainder
(`Int.tmod`). -/
def EvenFilter.keep (_ : EvenFilter) (number : Int) : Bool :=
  decide (Int.tmod number 2 = 0)

/-- `OddFilter`: stateless. -/
structure OddFilter where

/-- `OddFilter::keep`: `number % 2 != 0`, with C++'s truncated remainder. -/
def OddFilter.keep (_ : OddFilter) (number : Int) : Bool :=
  decide (Int.tmod number 2 ≠ 0)

/-- `GTFilter`: holds the threshold fixed by its constructor; the class
has no other state and no mutators. -/
structure GTFilter where
  threshold : Int

/-- `GTFilter::keep`: `number > threshold`. -/
def GTFilter.keep (f : GTFilter) (number : Int) : Bool :=
  decide (number > f.threshold)

/-- Closed sum of the filter classes implementing `INumberFilter`. -/
inductive INumberFilter where
  | even (f : EvenFilter)
  | odd (f : OddFilter)
  | gt (f : GTFilter)

/-- Virtual dispatch of `INumberFilter::keep`. -/
def INumberFilter.keep : INumberFilter → Int → Bool
  | .even f, n => f.keep n
  | .odd f, n => f.keep n
  | .gt f, n => f.keep n

/-- A registered creator: from the parameter string, either a filter or
the diagnostic line printed before returning `nullptr`. -/
abbrev Creator := Str → Except Str INumberFilter

/-- Lexicographic order on strings, as `std::string`'s `operator<`
(element-wise `char` comparison). -/
def strLt : Str → Str → Bool
  | [], [] => false
  | [], _ :: _ => true
  | _ :: _, [] => false
  | a :: as, b :: bs => if a < b then true else if b < a then false else strLt as bs

/-- Ordered-map insertion, as `std::map::operator[]=`: keys kept sorted,
an existing key's value is replaced. -/
def mapInsert (k : Str) (v : Creator) : List (Str × Creator) → List (Str × Creator)
  | [] => [(k, v)]
  | (k2, v2) :: rest =>
    if strLt k k2 then (k, v) :: (k2, v2) :: rest
    else if k = k2 then (k, v) :: rest
    else (k2, v2) :: mapInsert k v rest

/-- `FilterFactory::register_filter`: store the creator under the prefix
key; `std::map` iterates its entries in sorted key order. -/
def FilterFactory.register_filter (pfx : Str) (creator : Creator)
    (registry : List (Str × Creator)) : List (Str × Creator) :=
  mapInsert pfx creator registry

/-- Diagnostic printed by `FilterFactory::create` when no prefix matches. -/
def unknownFilterMsg (name : Str) : Str :=
  "Error: Unknown filter: ".toList ++ name

/-- `FilterFactory::create`: scan the registry in its (sorted) iteration
order; at the first prefix the name starts with, call that creator on the
rest of the name; if no prefix matches, print the unknown-filter
diagnostic and return `nullptr` (modelled as `Except.error`). -/
def FilterFactory.create (registry : List (Str × Creator)) (name : Str) :
    Except Str INumberFilter :=
  match registry with
  | [] => .error (unknownFilterMsg name)
  | (pfx, creator) :: rest =>
    if pfx.isPrefixOf name then creator (name.drop pfx.length)
    else FilterFactory.create rest name

/-- One observer callback in the run's trace; observers are identified by
their position in the processor's observer vector. -/
inductive Event where
  | onNumber (obs : Nat) (n : Int)
  | onFinished (obs : Nat)
deriving DecidableEq

/-- The inner loop `for (auto* obs : observers) obs->on_number(n);`. -/
def notifyNumber (observers : List Nat) (n : Int) : List Event :=
  observers.map (fun o => Event.onNumber o n)

/-- The final loop `for (auto* obs : observers) obs->on_finished();`. -/
def notifyFinished (observers : List Nat) : List Event :=
  observers.map Event.onFinished

/-- The main loop of `NumberProcessor::run`: for each number in order, if
the filter keeps it, notify every observer in registration order. -/
def processNumbers (keep : Int → Bool) (observers : List Nat) : List Int → List Event
  | [] => []
  | n :: ns =>
    (if keep n then notifyNumber observers n else []) ++ processNumbers keep observers ns

/-- `NumberProcessor::run` on an already-read number sequence: the number
loop followed by the finish round. -/
def NumberProcessor.run (keep : Int → Bool) (observers : List Nat)
    (numbers : List Int) : List Event :=
  processNumbers keep observers numbers ++ notifyFinished observers

/-- Projects out of an event the number delivered to observer `o`, if any. -/
def onNumberTo (o : Nat) : Event → Option Int
  | Event.onNumber o2 n => if o2 = o then some n else none
  | Event.onFinished _ => none

/-- `CountObserver` replayed over a trace: starting from tally `c`
(`count = 0` for a fresh instance), `on_number` increments the tally and
`on_finished` reports it.  Returns the tally the observer at position `o`
reports, or `none` if it is never notified of completion. -/
def countReport (o : Nat) : List Event → Nat → Option Nat
  | [], _ => none
  | Event.onNumber o2 _ :: rest, c => countReport o rest (if o2 = o then c + 1 else c)
  | Event.onFinished o2 :: rest, c => if o2 = o then some c else countReport o rest c

/-- Creator registered for prefix `"EVEN"`: ignores the parameter. -/
def evenCreator : Creator := fun _ => .ok (.even ⟨⟩)

/-- Creator registered for prefix `"ODD"`: ignores the parameter. -/
def oddCreator : Creator := fun _ => .ok (.odd ⟨⟩)

/-- Diagnostic printed by the `GT` creator before returning `nullptr`. -/
def gtErrorMsg : Str :=
  "Error: GT filter requires a numeric value, e.g., GT5".toList

/-- Creator registered for prefix `"GT"`: an empty parameter throws, and
`std::stoi` throws on a non-numeric (or out-of-range) parameter; the
`catch (...)` turns either into the diagnostic plus `nullptr`. -/
def gtCreator : Creator := fun param =>
  if param = [] then .error gtErrorMsg
  else
    match stoi param with
    | some n => .ok (.gt ⟨n⟩)
    | none => .error gtErrorMsg

/-- The factory contents after `main` registers `"EVEN"`, `"ODD"` and
`"GT"`, in that order. -/
def mainRegistry : List (Str × Creator) :=
  FilterFactory.register_filter "GT".toList gtCreator
    (FilterFactory.register_filter "ODD".toList oddCreator
      (FilterFactory.register_filter "EVEN".toList evenCreator []))

/-- `PrintObserver::on_number` output line. -/
def numberPassedMsg (n : Int) : Str :=
  "Number passed: ".toList ++ (toString n).toList

/-- `PrintObserver::on_finished` output line. -/
def finishedMsg : Str :=
  "Processing finished.".toList

/-- `CountObserver::on_finished` output line. -/
def totalMsg (c : Nat) : Str :=
  "Total passed numbers: ".toList ++ (toString c).toList

/-- Replays the run's trace against `main`'s concrete observers —
`PrintObserver` at position 0, `CountObserver` at position 1 (tally `c`)
— collecting the lines they print. -/
def interpretMainEvents : List Event → Nat → List Str
  | [], _ => []
  | Event.onNumber 0 n :: rest, c => numberPassedMsg n :: interpretMainEvents rest c
  | Event.onNumber 1 _ :: rest, c => interpretMainEvents rest (c + 1)
  | Event.onNumber _ _ :: rest, c => interpretMainEvents rest c
  | Event.onFinished 0 :: rest, c => finishedMsg :: interpretMainEvents rest c
  | Event.onFinished 1 :: rest, c => totalMsg c :: interpretMainEvents rest c
  | Event.onFinished _ :: rest, c => interpretMainEvents rest c

/-- Output of `processor.run` in `main`: observers are
`{ &printer, &counter }`, the counter's tally starts at 0. -/
def processorOutput (keep : Int → Bool) (numbers : List Int) : List Str :=
  interpretMainEvents (NumberProcessor.run keep [0, 1] numbers) 0

/-- The counter's reported total for one pipeline run over the given file
contents, with a fresh `CountObserver` (tally 0) at position 1. -/
def pipelineCounterReport (keep : Int → Bool) (content : Str) : Option Nat :=
  countReport 1 (NumberProcessor.run keep [0, 1] (extractNumbers content)) 0

/-- The usage text printed when `argc != 3`. -/
def usageLines : List Str :=
  ["Usage: ./number_pipeline <FILTER> <FILE>".toList,
   "Example filters: EVEN, ODD, GT5".toList]

/-- `main`, given its two positional arguments and the filesystem.
Returns the exit status and the lines printed: wrong argument count
prints usage and exits 1; a `nullptr` from the factory (unknown filter or
bad `GT` parameter) exits 1 after the diagnostic; otherwise the pipeline
runs and `main` returns 0. -/
def mainModel (args : List Str) (fs : Str → Option Str) : Nat × List Str :=
  match args with
  | [filterName, fileName] =>
    match FilterFactory.create mainRegistry filterName with
    | .error msg => (1, [msg])
    | .ok flt =>
      let rd := FileNumberReader.read_numbers fs fileName
      (0, rd.1 ++ processorOutput flt.keep rd.2)
  | _ => (1, usageLines)

/-- Specification-side rendering of an integer token: an optional minus
sign followed by its digits. -/
def renderTok : Bool × Str → Str
  | (neg, ds) => if neg then '-' :: ds else ds

/-- Specification-side value of an integer token. -/
def tokVal (t : Bool × Str) : Int :=
  (if t.1 then (-1 : Int) else 1) * (digitsVal t.2 : Int)

/-- A well-formed integer token: at least one digit, only digits, value
within the host `int` range. -/
def goodTok (t : Bool × Str) : Prop :=
  t.2 ≠ [] ∧ (∀ c ∈ t.2, c.isDigit = true) ∧ intMin ≤ tokVal t ∧ tokVal t ≤ intMax

instance (t : Bool × Str) : Decidable (goodTok t) := by
  unfold goodTok
  infer_instance

/-- Joins tokens with single spaces, forming a file's contents. -/
def joinToks : List (Bool × Str) → Str
  | [] => []
  | t :: ts =>
    match ts with
    | [] => renderTok t
    | _ :: _ => renderTok t ++ ' ' :: joinToks ts

/-- A string that cannot begin another number: empty, or starting with a
character that is not a digit. -/
def tailOk (tail : Str) : Prop :=
  tail = [] ∨ ∃ c cs, tail = c :: cs ∧ c.isDigit = false

/-! ### Character and token lemmas -/

theorem space_not_digit {c : Char} (h : isSpace c = true) : c.isDigit = false := by
  simp only [isSpace, Bool.or_eq_true, beq_iff_eq] at h
  rcases h with ((((h | h) | h) | h) | h) | h <;> subst h <;> decide

theorem digit_not_space {c : Char} (h : c.isDigit = true) : isSpace c = false := by
  cases hs : isSpace c
  · rfl
  · rw [space_not_digit hs] at h
    exact Bool.noConfusion h

theorem digit_ne_minus {c : Char} (h : c.isDigit = true) : c ≠ '-' := by
  intro he
  subst he
  exact absurd h (by decide)

theorem digit_ne_plus {c : Char} (h : c.isDigit = true) : c ≠ '+' := by
  intro he
  subst he
  exact absurd h (by decide)

theorem takeWhile_digits_stops (tail : Str) (ht : tailOk tail) :
    tail.takeWhile Char.isDigit = [] := by
  rcases ht with rfl | ⟨c, cs, rfl, hc⟩
  · rfl
  · simp [List.takeWhile_cons, hc]

theorem takeWhile_digits_append (ds tail : Str) (hds : ∀ c ∈ ds, c.isDigit = true)
    (ht : tailOk tail) : (ds ++ tail).takeWhile Char.isDigit = ds := by
  induction ds with
  | nil => simpa using takeWhile_digits_stops tail ht
  | cons d ds2 ih =>
    have hd : d.isDigit = true := hds d (List.mem_cons_self d ds2)
    simp only [List.cons_append, List.takeWhile_cons, hd, if_true]
    rw [ih (fun c hc => hds c (List.mem_cons_of_mem d hc))]

/-! ### Extraction lemmas -/

theorem extractIntCore_minus (ds tail : Str) (h1 : ds ≠ [])
    (h2 : ∀ c ∈ ds, c.isDigit = true) (ht : tailOk tail) :
    extractIntCore ('-' :: (ds ++ tail)) =
      if (-1 : Int) * (digitsVal ds : Int) < intMin ∨
          intMax < (-1 : Int) * (digitsVal ds : Int) then none
      else some ((-1 : Int) * (digitsVal ds : Int), tail) := by
  have htw : (ds ++ tail).takeWhile Char.isDigit = ds := takeWhile_digits_append ds tail h2 ht
  have step : extractIntCore ('-' :: (ds ++ tail)) =
      if (ds ++ tail).takeWhile Char.isDigit = [] then none
      else if (-1 : Int) * (digitsVal ((ds ++ tail).takeWhile Char.isDigit) : Int) < intMin ∨
          intMax < (-1 : Int) * (digitsVal ((ds ++ tail).takeWhile Char.isDigit) : Int) then none
      else some ((-1 : Int) * (digitsVal ((ds ++ tail).takeWhile Char.isDigit) : Int),
        (ds ++ tail).drop ((ds ++ tail).takeWhile Char.isDigit).length) := rfl
  rw [step, htw, if_neg h1, List.drop_left]

theorem extractIntCore_digits (ds tail : Str) (h1 : ds ≠ [])
    (h2 : ∀ c ∈ ds, c.isDigit = true) (ht : tailOk tail) :
    extractIntCore (ds ++ tail) =
      if (1 : Int) * (digitsVal ds : Int) < intMin ∨
          intMax < (1 : Int) * (digitsVal ds : Int) then none
      else some ((1 : Int) * (digitsVal ds : Int), tail) := by
  have htw : (ds ++ tail).takeWhile Char.isDigit = ds := takeWhile_digits_append ds tail h2 ht
  cases ds with
  | nil => exact absurd rfl h1
  | cons d ds2 =>
    have hd : d.isDigit = true := h2 d (List.mem_cons_self d ds2)
    have hdm : ¬(d = '-') := digit_ne_minus hd
    have hmp : ¬(d = '-' ∨ d = '+') := by
      rintro (h | h)
      · exact digit_ne_minus hd h
      · exact digit_ne_plus hd h
    have step : extractIntCore ((d :: ds2) ++ tail) =
        (fun (sgn : Int) (s2 : Str) =>
          if s2.takeWhile Char.isDigit = [] then none
          else if sgn * (digitsVal (s2.takeWhile Char.isDigit) : Int) < intMin ∨
              intMax < sgn * (digitsVal (s2.takeWhile Char.isDigit) : Int) then none
          else some (sgn * (digitsVal (s2.takeWhile Char.isDigit) : Int),
            s2.drop (s2.takeWhile Char.isDigit).length))
        (if d = '-' then (-1 : Int) else 1)
        (if d = '-' ∨ d = '+' then ds2 ++ tail else d :: (ds2 ++ tail)) := rfl
    rw [step, if_neg hdm, if_neg hmp]
    show (if ((d :: ds2) ++ tail).takeWhile Char.isDigit = [] then none
      else if (1 : Int) * (digitsVal (((d :: ds2) ++ tail).takeWhile Char.isDigit) : Int) < intMin ∨
          intMax < (1 : Int) * (digitsVal (((d :: ds2) ++ tail).takeWhile Char.isDigit) : Int) then none
      else some ((1 : Int) * (digitsVal (((d :: ds2) ++ tail).takeWhile Char.isDigit) : Int),
        ((d :: ds2) ++ tail).drop (((d :: ds2) ++ tail).takeWhile Char.isDigit).length)) = _
    rw [htw, if_neg (by simp), List.drop_left]

theorem extractInt_token (neg : Bool) (ds tail : Str) (h1 : ds ≠ [])
    (h2 : ∀ c ∈ ds, c.isDigit = true)
    (h3 : intMin ≤ tokVal (neg, ds)) (h4 : tokVal (neg, ds) ≤ intMax)
    (ht : tailOk tail) :
    extractInt (renderTok (neg, ds) ++ tail) = some (tokVal (neg, ds), tail) := by
  have hnc : ¬(tokVal (neg, ds) < intMin ∨ intMax < tokVal (neg, ds)) := by
    push_neg
    exact ⟨h3, h4⟩
  cases neg with
  | true =>
    have hval : tokVal (true, ds) = (-1 : Int) * (digitsVal ds : Int) := rfl
    have hdrop : (('-' :: (ds ++ tail)).dropWhile isSpace) = '-' :: (ds ++ tail) := by
      rw [List.dropWhile_cons, if_neg (by decide)]
    show extractIntCore (('-' :: (ds ++ tail)).dropWhile isSpace) = some (tokVal (true, ds), tail)
    rw [hdrop, extractIntCore_minus ds tail h1 h2 ht, ← hval, if_neg hnc]
  | false =>
    cases ds with
    | nil => exact absurd rfl h1
    | cons d ds2 =>
      have hval : tokVal (false, d :: ds2) = (1 : Int) * (digitsVal (d :: ds2) : Int) := rfl
      have hsp : isSpace d = false := digit_not_space (h2 d (List.mem_cons_self d ds2))
      have hdrop : (((d :: ds2) ++ tail).dropWhile isSpace) = (d :: ds2) ++ tail := by
        rw [List.cons_append, List.dropWhile_cons, hsp]
        simp
      show extractIntCore (((d :: ds2) ++ tail).dropWhile isSpace) = some (tokVal (false, d :: ds2), tail)
      rw [hdrop, extractIntCore_digits (d :: ds2) tail h1 h2 ht, ← hval, if_neg hnc]

theorem extractInt_junk (c : Char) (rest : Str) (hsp : isSpace c = false)
    (hd : c.isDigit = false) (hm : c ≠ '-') (hp : c ≠ '+') :
    extractInt (c :: rest) = none := by
  have hmp : ¬(c = '-' ∨ c = '+') := by
    rintro (h | h)
    · exact hm h
    · exact hp h
  have hdrop : ((c :: rest).dropWhile isSpace) = c :: rest := by
    rw [List.dropWhile_cons, hsp]
    simp
  have htw : (c :: rest).takeWhile Char.isDigit = [] := by
    rw [List.takeWhile_cons, hd]
    simp
  have step : extractIntCore (c :: rest) =
      (fun (sgn : Int) (s2 : Str) =>
        if s2.takeWhile Char.isDigit = [] then none
        else if sgn * (digitsVal (s2.takeWhile Char.isDigit) : Int) < intMin ∨
            intMax < sgn * (digitsVal (s2.takeWhile Char.isDigit) : Int) then none
        else some (sgn * (digitsVal (s2.takeWhile Char.isDigit) : Int),
          s2.drop (s2.takeWhile Char.isDigit).length))
      (if c = '-' then (-1 : Int) else 1)
      (if c = '-' ∨ c = '+' then rest else c :: rest) := rfl
  show extractIntCore ((c :: rest).dropWhile isSpace) = none
  rw [hdrop, step, if_neg hmp]
  show (if (c :: rest).takeWhile Char.isDigit = [] then none else _) = none
  rw [htw, if_pos rfl]

theorem extractInt_space (s : Str) : extractInt (' ' :: s) = extractInt s := by
  show extractIntCore ((' ' :: s).dropWhile isSpace) = extractIntCore (s.dropWhile isSpace)
  rw [List.dropWhile_cons, if_pos (by decide)]

theorem extractInt_nil : extractInt [] = none := rfl

/-! ### Termination-fuel lemmas for the extraction loop -/

theorem dropWhile_length_le (p : Char → Bool) (l : Str) :
    (l.dropWhile p).length ≤ l.length := by
  induction l with
  | nil => exact Nat.le_refl 0
  | cons a l ih =>
    rw [List.dropWhile_cons]
    by_cases h : p a = true
    · rw [if_pos h]
      exact Nat.le_trans ih (Nat.le_succ _)
    · rw [if_neg h]

theorem takeWhile_length_le (p : Char → Bool) (l : Str) :
    (l.takeWhile p).length ≤ l.length := by
  induction l with
  | nil => exact Nat.le_refl 0
  | cons a l ih =>
    rw [List.takeWhile_cons]
    by_cases h : p a = true
    · rw [if_pos h]
      exact Nat.succ_le_succ ih
    · rw [if_neg h]
      exact Nat.zero_le _

theorem extractIntCore_length {t : Str} {n : Int} {r : Str}
    (h : extractIntCore t = some (n, r)) : r.length < t.length := by
  cases t with
  | nil => exact absurd h (by simp [extractIntCore])
  | cons c cs =>
    simp only [extractIntCore] at h
    by_cases hc : c = '-' ∨ c = '+'
    · rw [if_pos hc] at h
      have hr : r = cs.drop (cs.takeWhile Char.isDigit).length := by
        split at h
        · exact absurd h (by simp)
        · split at h <;> split at h <;>
            first
              | exact (congrArg Prod.snd (Option.some.inj h)).symm
              | exact absurd h (by simp)
      have h2 : (cs.takeWhile Char.isDigit).length ≤ cs.length := takeWhile_length_le _ _
      rw [hr, List.length_drop]
      simp only [List.length_cons]
      omega
    · rw [if_neg hc] at h
      have hds : ¬((c :: cs).takeWhile Char.isDigit = []) := by
        intro h0
        rw [h0, if_pos rfl] at h
        exact Option.noConfusion h
      have hr : r = (c :: cs).drop ((c :: cs).takeWhile Char.isDigit).length := by
        split at h
        · exact absurd h (by simp)
        · split at h <;> split at h <;>
            first
              | exact (congrArg Prod.snd (Option.some.inj h)).symm
              | exact absurd h (by simp)
      have hlen : ((c :: cs).takeWhile Char.isDigit).length ≠ 0 := by
        intro h0
        exact hds (List.eq_nil_of_length_eq_zero h0)
      have h2 : ((c :: cs).takeWhile Char.isDigit).length ≤ (c :: cs).length :=
        takeWhile_length_le _ _
      rw [hr, List.length_drop]
      simp only [List.length_cons] at h2 ⊢
      omega

theorem extractInt_length {s : Str} {n : Int} {r : Str}
    (h : extractInt s = some (n, r)) : r.length < s.length :=
  Nat.lt_of_lt_of_le (extractIntCore_length h) (dropWhile_length_le isSpace s)

theorem readLoop_fuel_eq : ∀ (f1 : Nat) (s : Str) (f2 : Nat),
    s.length < f1 → s.length < f2 → readLoop f1 s = readLoop f2 s := by
  intro f1
  induction f1 with
  | zero => intro s f2 h1 _; exact absurd h1 (Nat.not_lt_zero _)
  | succ f ih =>
    intro s f2 h1 h2
    cases f2 with
    | zero => exact absurd h2 (Nat.not_lt_zero _)
    | succ f2 =>
      cases hx : extractInt s with
      | none =>
        have e1 : readLoop (f + 1) s = [] := by simp only [readLoop, hx]
        have e2 : readLoop (f2 + 1) s = [] := by simp only [readLoop, hx]
        rw [e1, e2]
      | some p =>
        obtain ⟨n, r⟩ := p
        have hl := extractInt_length hx
        have e1 : readLoop (f + 1) s = n :: readLoop f r := by simp only [readLoop, hx]
        have e2 : readLoop (f2 + 1) s = n :: readLoop f2 r := by simp only [readLoop, hx]
        rw [e1, e2, ih r f2 (by omega) (by omega)]

theorem extractNumbers_none {s : Str} (h : extractInt s = none) :
    extractNumbers s = [] := by
  simp [extractNumbers, readLoop, h]

theorem extractNumbers_cons {s : Str} {n : Int} {r : Str}
    (h : extractInt s = some (n, r)) : extractNumbers s = n :: extractNumbers r := by
  have e1 : readLoop (s.length + 1) s = n :: readLoop s.length r := by
    simp only [readLoop, h]
  show readLoop (s.length + 1) s = n :: readLoop (r.length + 1) r
  rw [e1, readLoop_fuel_eq s.length r (r.length + 1) (extractInt_length h) (Nat.lt_succ_self _)]

theorem extractNumbers_nil : extractNumbers [] = [] :=
  extractNumbers_none extractInt_nil

theorem extractNumbers_space (s : Str) : extractNumbers (' ' :: s) = extractNumbers s := by
  cases hx : extractInt s with
  | none =>
    rw [extractNumbers_none (by rw [extractInt_space]; exact hx), extractNumbers_none hx]
  | some p =>
    obtain ⟨n, r⟩ := p
    rw [extractNumbers_cons (show extractInt (' ' :: s) = some (n, r) by
          rw [extractInt_space]; exact hx),
      extractNumbers_cons hx]

/-! ### The reader's token scan -/

theorem scan_tokens : ∀ (toks : List (Bool × Str)) (tail : Str),
    (∀ t ∈ toks, goodTok t) → tailOk tail →
    extractNumbers (joinToks toks ++ tail) = toks.map tokVal ++ extractNumbers tail := by
  intro toks
  induction toks with
  | nil => intro tail _ _; simp [joinToks]
  | cons t ts ih =>
    intro tail htoks htail
    obtain ⟨neg, ds⟩ := t
    obtain ⟨h1, h2, h3, h4⟩ := htoks (neg, ds) (List.mem_cons_self _ _)
    cases ts with
    | nil =>
      show extractNumbers (renderTok (neg, ds) ++ tail) = tokVal (neg, ds) :: ([] ++ extractNumbers tail)
      rw [extractNumbers_cons (extractInt_token neg ds tail h1 h2 h3 h4 htail), List.nil_append]
    | cons t2 ts2 =>
      have hjoin : joinToks ((neg, ds) :: t2 :: ts2) ++ tail
          = renderTok (neg, ds) ++ (' ' :: (joinToks (t2 :: ts2) ++ tail)) := by
        show (renderTok (neg, ds) ++ ' ' :: joinToks (t2 :: ts2)) ++ tail = _
        rw [List.append_assoc]
        rfl
      rw [hjoin]
      have hmid : tailOk (' ' :: (joinToks (t2 :: ts2) ++ tail)) :=
        Or.inr ⟨' ', _, rfl, by decide⟩
      rw [extractNumbers_cons (extractInt_token neg ds _ h1 h2 h3 h4 hmid)]
      rw [extractNumbers_space]
      rw [ih tail (fun x hx => htoks x (List.mem_cons_of_mem _ hx)) htail]
      rfl

/-! ### Runner and observer lemmas -/

theorem processNumbers_eq_flatten (keep : Int → Bool) (obs : List Nat) (ns : List Int) :
    processNumbers keep obs ns = ((ns.filter keep).map (notifyNumber obs)).flatten := by
  induction ns with
  | nil => rfl
  | cons n ns ih =>
    simp only [processNumbers, List.filter_cons]
    cases hk : keep n with
    | true => simp [ih]
    | false => simp [ih]

theorem filterMap_onNumberTo_notifyNumber_zero (obs : List Nat) (o : Nat) (n : Int)
    (hm : o ∉ obs) : (notifyNumber obs n).filterMap (onNumberTo o) = [] := by
  induction obs with
  | nil => rfl
  | cons a as ih =>
    have ha : ¬(a = o) := fun h => hm (h ▸ List.mem_cons_self a as)
    simp only [notifyNumber, List.map_cons, List.filterMap_cons, onNumberTo, if_neg ha]
    exact ih (fun h => hm (List.mem_cons_of_mem a h))

theorem filterMap_onNumberTo_notifyNumber (obs : List Nat) (o : Nat) (n : Int)
    (hnd : obs.Nodup) (hm : o ∈ obs) :
    (notifyNumber obs n).filterMap (onNumberTo o) = [n] := by
  induction obs with
  | nil => exact absurd hm (List.not_mem_nil o)
  | cons a as ih =>
    by_cases ha : a = o
    · subst ha
      simp only [notifyNumber, List.map_cons, List.filterMap_cons, onNumberTo, if_pos rfl]
      rw [show List.map (fun o => Event.onNumber o n) as = notifyNumber as n from rfl,
        filterMap_onNumberTo_notifyNumber_zero as a n (List.nodup_cons.mp hnd).1]
      simp
    · have hm2 : o ∈ as := by
        cases List.mem_cons.mp hm with
        | inl h => exact absurd h.symm ha
        | inr h => exact h
      simp only [notifyNumber, List.map_cons, List.filterMap_cons, onNumberTo, if_neg ha]
      exact ih (List.nodup_cons.mp hnd).2 hm2

theorem filterMap_onNumberTo_notifyFinished (obs : List Nat) (o : Nat) :
    (notifyFinished obs).filterMap (onNumberTo o) = [] := by
  induction obs with
  | nil => rfl
  | cons a as ih =>
    simp only [notifyFinished, List.map_cons, List.filterMap_cons, onNumberTo]
    exact ih

theorem filterMap_onNumberTo_processNumbers (keep : Int → Bool) (obs : List Nat)
    (ns : List Int) (o : Nat) (hnd : obs.Nodup) (hm : o ∈ obs) :
    (processNumbers keep obs ns).filterMap (onNumberTo o) = ns.filter keep := by
  induction ns with
  | nil => rfl
  | cons n ns ih =>
    simp only [processNumbers, List.filterMap_append, List.filter_cons]
    cases hk : keep n with
    | true =>
      rw [if_pos rfl, if_pos rfl,
        filterMap_onNumberTo_notifyNumber obs o n hnd hm, ih]
      rfl
    | false =>
      simp only [Bool.false_eq_true, if_false]
      rw [ih]
      rfl

theorem filterMap_onNumberTo_run (keep : Int → Bool) (obs : List Nat) (ns : List Int)
    (o : Nat) (hnd : obs.Nodup) (hm : o ∈ obs) :
    (NumberProcessor.run keep obs ns).filterMap (onNumberTo o) = ns.filter keep := by
  unfold NumberProcessor.run
  rw [List.filterMap_append, filterMap_onNumberTo_processNumbers keep obs ns o hnd hm,
    filterMap_onNumberTo_notifyFinished obs o, List.append_nil]

theorem countP_onFinished_notifyNumber (obs : List Nat) (o : Nat) (n : Int) :
    (notifyNumber obs n).countP (fun e => decide (e = Event.onFinished o)) = 0 := by
  induction obs with
  | nil => rfl
  | cons a as ih =>
    simp only [notifyNumber, List.map_cons, List.countP_cons]
    rw [show List.map (fun o => Event.onNumber o n) as = notifyNumber as n from rfl, ih]
    simp

theorem countP_onFinished_processNumbers (keep : Int → Bool) (obs : List Nat)
    (ns : List Int) (o : Nat) :
    (processNumbers keep obs ns).countP (fun e => decide (e = Event.onFinished o)) = 0 := by
  induction ns with
  | nil => rfl
  | cons n ns ih =>
    simp only [processNumbers, List.countP_append, ih]
    cases hk : keep n with
    | true => simp [countP_onFinished_notifyNumber]
    | false => simp

theorem countP_onFinished_notifyFinished_zero (obs : List Nat) (o : Nat) (hm : o ∉ obs) :
    (notifyFinished obs).countP (fun e => decide (e = Event.onFinished o)) = 0 := by
  induction obs with
  | nil => rfl
  | cons a as ih =>
    have ha : ¬(Event.onFinished a = Event.onFinished o) := by
      intro h
      exact hm (Event.onFinished.inj h ▸ List.mem_cons_self a as)
    simp only [notifyFinished, List.map_cons, List.countP_cons, decide_eq_true_eq, if_neg ha]
    rw [show List.map Event.onFinished as = notifyFinished as from rfl,
      ih (fun h => hm (List.mem_cons_of_mem a h))]

theorem countP_onFinished_notifyFinished (obs : List Nat) (o : Nat)
    (hnd : obs.Nodup) (hm : o ∈ obs) :
    (notifyFinished obs).countP (fun e => decide (e = Event.onFinished o)) = 1 := by
  induction obs with
  | nil => exact absurd hm (List.not_mem_nil o)
  | cons a as ih =>
    by_cases ha : a = o
    · subst ha
      simp only [notifyFinished, List.map_cons, List.countP_cons, decide_eq_true_eq, if_pos rfl]
      rw [show List.map Event.onFinished as = notifyFinished as from rfl,
        countP_onFinished_notifyFinished_zero as a (List.nodup_cons.mp hnd).1]
      simp
    · have hm2 : o ∈ as := by
        cases List.mem_cons.mp hm with
        | inl h => exact absurd h.symm ha
        | inr h => exact h
      have ha2 : ¬(Event.onFinished a = Event.onFinished o) := fun h =>
        ha (Event.onFinished.inj h)
      simp only [notifyFinished, List.map_cons, List.countP_cons, decide_eq_true_eq, if_neg ha2]
      rw [show List.map Event.onFinished as = notifyFinished as from rfl]
      rw [ih (List.nodup_cons.mp hnd).2 hm2]

theorem countP_onFinished_run (keep : Int → Bool) (obs : List Nat) (ns : List Int)
    (o : Nat) (hnd : obs.Nodup) (hm : o ∈ obs) :
    (NumberProcessor.run keep obs ns).countP (fun e => decide (e = Event.onFinished o)) = 1 := by
  unfold NumberProcessor.run
  rw [List.countP_append, countP_onFinished_processNumbers keep obs ns o,
    countP_onFinished_notifyFinished obs o hnd hm]

/-! ### Counter-replay lemmas -/

theorem countReport_rounds : ∀ (l : List Int) (tail : List Event) (c : Nat),
    countReport 1 ((l.map (notifyNumber [0, 1])).flatten ++ tail) c
      = countReport 1 tail (c + l.length) := by
  intro l
  induction l with
  | nil => intro tail c; simp
  | cons n l ih =>
    intro tail c
    have hshape : ((n :: l).map (notifyNumber [0, 1])).flatten ++ tail
        = Event.onNumber 0 n :: Event.onNumber 1 n ::
            ((l.map (notifyNumber [0, 1])).flatten ++ tail) := by
      simp [notifyNumber]
    rw [hshape]
    have step : countReport 1 (Event.onNumber 0 n :: Event.onNumber 1 n ::
        ((l.map (notifyNumber [0, 1])).flatten ++ tail)) c
        = countReport 1 ((l.map (notifyNumber [0, 1])).flatten ++ tail) (c + 1) := by
      simp [countReport]
    rw [step, ih tail (c + 1)]
    rw [show c + 1 + l.length = c + (n :: l).length from by simp; omega]

theorem countReport_finish (c : Nat) :
    countReport 1 (notifyFinished [0, 1]) c = some c := by
  simp [notifyFinished, countReport]

/-! ### Registry resolution lemmas -/

theorem create_no_match : ∀ (registry : List (Str × Creator)) (name : Str),
    (∀ p ∈ registry, p.1.isPrefixOf name = false) →
    FilterFactory.create registry name = .error (unknownFilterMsg name) := by
  intro registry
  induction registry with
  | nil => intro name _; rfl
  | cons p rest ih =>
    intro name hnm
    obtain ⟨pfx, cr⟩ := p
    have hp : pfx.isPrefixOf name = false := hnm (pfx, cr) (List.mem_cons_self _ _)
    simp only [FilterFactory.create, hp, Bool.false_eq_true, if_false]
    exact ih name (fun q hq => hnm q (List.mem_cons_of_mem _ hq))

theorem create_main_gt (param : Str) :
    FilterFactory.create mainRegistry ('G' :: 'T' :: param) = gtCreator param := by
  have hreg : mainRegistry = [("EVEN".toList, evenCreator), ("GT".toList, gtCreator),
      ("ODD".toList, oddCreator)] := rfl
  have hE : ("EVEN".toList).isPrefixOf ('G' :: 'T' :: param) = false := rfl
  have hG : ("GT".toList).isPrefixOf ('G' :: 'T' :: param) = true := by
    simp [List.isPrefixOf]
  rw [hreg]
  simp only [FilterFactory.create, hE, Bool.false_eq_true, if_false, hG, if_true]
  rfl

/-! ### Claims -/

/-- C1: for every filter, observer list and number sequence, one run of
`NumberProcessor::run` notifies the observers in one round per passing
number (rounds in original sequence order, each round visiting the
observers in registration order) followed by exactly one finish round;
hence each observer receives `on_number` exactly once per passing number,
with the passing numbers in order, and `on_finished` exactly once. -/
theorem run_observer_notification_invariant (keep : Int → Bool) (observers : List Nat)
    (numbers : List Int) (hnd : observers.Nodup) :
    NumberProcessor.run keep observers numbers
      = ((numbers.filter keep).map (notifyNumber observers)).flatten
          ++ notifyFinished observers
    ∧ ∀ o ∈ observers,
        (NumberProcessor.run keep observers numbers).filterMap (onNumberTo o)
          = numbers.filter keep
        ∧ (NumberProcessor.run keep observers numbers).countP
            (fun e => decide (e = Event.onFinished o)) = 1 := by
  constructor
  · unfold NumberProcessor.run
    rw [processNumbers_eq_flatten]
  · intro o ho
    exact ⟨filterMap_onNumberTo_run keep observers numbers o hnd ho,
      countP_onFinished_run keep observers numbers o hnd ho⟩

theorem run_observer_notification_invariant_witness :
    ([0, 1] : List Nat).Nodup
    ∧ (NumberProcessor.run (fun n => decide (0 < n)) [0, 1] [1, -2, 3]).filterMap
        (onNumberTo 1) = [1, 3]
    ∧ (NumberProcessor.run (fun n => decide (0 < n)) [0, 1] [1, -2, 3]).countP
        (fun e => decide (e = Event.onFinished 1)) = 1 := by
  have h := run_observer_notification_invariant (fun n => decide (0 < n)) [0, 1]
    [1, -2, 3] (by decide)
  have h2 := h.2 1 (by simp)
  exact ⟨by decide, h2.1.trans (by decide), h2.2⟩

/-- C2 (code defect evidence): on a missing file the program does NOT
fail: `main` prints the file-not-found diagnostic, runs the pipeline on
the empty sequence, prints the normal completion report and exits 0 —
contradicting the spec's required `IOError` with non-zero exit. -/
theorem main_missing_file_proceeds :
    mainModel ["EVEN".toList, "numbers.txt".toList] (fun _ => none)
      = (0, [fileNotFoundMsg ("numbers.txt".toList), finishedMsg, totalMsg 0]) := by
  decide

/-- C3: for every non-empty registry and every name no registered prefix
matches, `FilterFactory::create` fails with the unknown-filter error
instead of returning a filter. -/
theorem create_unregistered_name (registry : List (Str × Creator)) (name : Str)
    (_hne : registry ≠ []) (hnm : ∀ p ∈ registry, p.1.isPrefixOf name = false) :
    FilterFactory.create registry name = .error (unknownFilterMsg name) :=
  create_no_match registry name hnm

theorem create_unregistered_name_witness :
    mainRegistry ≠ []
    ∧ (∀ p ∈ mainRegistry, p.1.isPrefixOf ("FOO".toList) = false)
    ∧ FilterFactory.create mainRegistry ("FOO".toList)
        = Except.error (unknownFilterMsg ("FOO".toList)) := by
  have hreg : mainRegistry = [("EVEN".toList, evenCreator), ("GT".toList, gtCreator),
      ("ODD".toList, oddCreator)] := rfl
  have hne : mainRegistry ≠ [] := by
    rw [hreg]
    intro h
    exact List.noConfusion h
  have hnm : ∀ p ∈ mainRegistry, p.1.isPrefixOf ("FOO".toList) = false := by
    intro p hp
    rw [hreg] at hp
    rcases List.mem_cons.mp hp with rfl | hp
    · decide
    · rcases List.mem_cons.mp hp with rfl | hp
      · decide
      · rcases List.mem_cons.mp hp with rfl | hp
        · decide
        · exact absurd hp (List.not_mem_nil p)
  exact ⟨hne, hnm, create_unregistered_name mainRegistry ("FOO".toList) hne hnm⟩

/-- C4: a `GT` filter name whose parameter is missing (empty) or has no
parseable leading integer makes the `GT` creator fail with the
invalid-argument diagnostic, `main` exits with status 1, and no numbers
are processed (the file is never read, no pipeline output is produced). -/
theorem gt_missing_or_nonnumeric_param (param fileName : Str) (fs : Str → Option Str)
    (h : stoi param = none) :
    mainModel ["GT".toList ++ param, fileName] fs = (1, [gtErrorMsg]) := by
  have e1 : ("GT".toList ++ param : Str) = 'G' :: 'T' :: param := rfl
  rw [e1]
  have hcr : FilterFactory.create mainRegistry ('G' :: 'T' :: param)
      = Except.error gtErrorMsg := by
    rw [create_main_gt]
    by_cases hp : param = []
    · subst hp
      rfl
    · simp only [gtCreator, if_neg hp, h]
  simp only [mainModel, hcr]

theorem gt_missing_or_nonnumeric_param_witness :
    stoi ("abc".toList) = none
    ∧ mainModel ["GT".toList ++ "abc".toList, "f.txt".toList] (fun _ => none)
        = (1, [gtErrorMsg]) :=
  ⟨by decide, gt_missing_or_nonnumeric_param ("abc".toList) ("f.txt".toList)
    (fun _ => none) (by decide)⟩

/-- C5: `read_numbers` returns the file's integer tokens in file order,
and stops at the first non-integer token, returning the integers read so
far as a successful partial result (no error output) rather than an
error. -/
theorem read_numbers_tokens_partial (toks : List (Bool × Str)) (c : Char) (rest : Str)
    (fs : Str → Option Str) (file : Str)
    (ht : ∀ t ∈ toks, goodTok t)
    (hc : c.isDigit = false ∧ isSpace c = false ∧ c ≠ '-' ∧ c ≠ '+') :
    (fs file = some (joinToks toks) →
      FileNumberReader.read_numbers fs file = ([], toks.map tokVal))
    ∧ (fs file = some (joinToks toks ++ ' ' :: c :: rest) →
      FileNumberReader.read_numbers fs file = ([], toks.map tokVal)) := by
  obtain ⟨hd, hsp, hm, hp⟩ := hc
  have good : extractNumbers (joinToks toks) = toks.map tokVal := by
    have hs := scan_tokens toks [] ht (Or.inl rfl)
    rw [List.append_nil] at hs
    rw [hs, extractNumbers_nil, List.append_nil]
  have part : extractNumbers (joinToks toks ++ ' ' :: c :: rest) = toks.map tokVal := by
    have hs := scan_tokens toks (' ' :: c :: rest) ht (Or.inr ⟨' ', c :: rest, rfl, by decide⟩)
    rw [hs, extractNumbers_space,
      extractNumbers_none (extractInt_junk c rest hsp hd hm hp), List.append_nil]
  constructor
  · intro hfs
    unfold FileNumberReader.read_numbers
    rw [hfs]
    show (([] : List Str), extractNumbers (joinToks toks))
      = (([] : List Str), toks.map tokVal)
    rw [good]
  · intro hfs
    unfold FileNumberReader.read_numbers
    rw [hfs]
    show (([] : List Str), extractNumbers (joinToks toks ++ ' ' :: c :: rest))
      = (([] : List Str), toks.map tokVal)
    rw [part]

theorem read_numbers_tokens_partial_witness :
    (∀ t ∈ [((false : Bool), "1".toList), ((true : Bool), "2".toList)], goodTok t)
    ∧ FileNumberReader.read_numbers
        (fun _ => some (joinToks [((false : Bool), "1".toList), ((true : Bool), "2".toList)]
          ++ ' ' :: 'x' :: "7".toList))
        ("f".toList)
        = ([], [(1 : Int), -2]) := by
  have h := read_numbers_tokens_partial
    [((false : Bool), "1".toList), ((true : Bool), "2".toList)] 'x' ("7".toList)
    (fun _ => some (joinToks [((false : Bool), "1".toList), ((true : Bool), "2".toList)]
      ++ ' ' :: 'x' :: "7".toList))
    ("f".toList) (by decide) (by decide)
  exact ⟨by decide, (h.2 rfl).trans (by decide)⟩

/-- C6: `GTFilter` constructed with threshold `t` keeps `n` exactly when
`n > t`, and the stored threshold is the constructor argument (the class
has no mutator, so it never changes). -/
theorem gt_filter_keep_iff (t n : Int) :
    ((GTFilter.mk t).keep n = true ↔ n > t) ∧ (GTFilter.mk t).threshold = t := by
  refine ⟨?_, rfl⟩
  simp [GTFilter.keep]

/-- C7: the even and odd filters are exact complements on every integer. -/
theorem even_odd_complement (n : Int) :
    EvenFilter.mk.keep n = !OddFilter.mk.keep n := by
  simp [EvenFilter.keep, OddFilter.keep, decide_not]

/-- C8: the even filter keeps `n` exactly when `n % 2 == 0` under C++'s
truncated remainder, and in particular keeps every negative even
integer. -/
theorem even_keep_tmod_and_negatives :
    (∀ n : Int, EvenFilter.mk.keep n = true ↔ Int.tmod n 2 = 0)
    ∧ ∀ n : Int, n < 0 → 2 ∣ n → EvenFilter.mk.keep n = true := by
  constructor
  · intro n
    simp [EvenFilter.keep]
  · rintro n _ ⟨k, rfl⟩
    simp [EvenFilter.keep, Int.mul_tmod_right]

theorem even_keep_tmod_and_negatives_witness :
    ((-4 : Int) < 0) ∧ ((2 : Int) ∣ (-4)) ∧ EvenFilter.mk.keep (-4) = true :=
  ⟨by decide, ⟨-2, by decide⟩,
    even_keep_tmod_and_negatives.2 (-4) (by decide) ⟨-2, by decide⟩⟩

/-- C9: the pipeline is a pure function of the filter and the file
contents: two runs with fresh `CountObserver` instances over the same
contents and filter are the same application and report the same count,
namely the number of values passing the filter. -/
theorem pipeline_report_deterministic (keep : Int → Bool) (content : Str) :
    pipelineCounterReport keep content = pipelineCounterReport keep content
    ∧ pipelineCounterReport keep content
        = some ((extractNumbers content).filter keep).length := by
  refine ⟨rfl, ?_⟩
  unfold pipelineCounterReport NumberProcessor.run
  rw [processNumbers_eq_flatten, countReport_rounds, countReport_finish, Nat.zero_add]

/-- C10: a `GT` parameter that begins with a parseable integer followed
by non-digit junk (e.g. name `GT5abc`) is accepted: the factory returns a
`GTFilter` whose threshold is the leading integer, rather than the
invalid-argument error. -/
theorem gt_param_trailing_junk (neg : Bool) (ds : Str) (c : Char) (rest : Str)
    (h1 : ds ≠ []) (h2 : ∀ d ∈ ds, d.isDigit = true)
    (h3 : intMin ≤ tokVal (neg, ds)) (h4 : tokVal (neg, ds) ≤ intMax)
    (hc : c.isDigit = false) :
    FilterFactory.create mainRegistry ("GT".toList ++ (renderTok (neg, ds) ++ c :: rest))
      = Except.ok (INumberFilter.gt ⟨tokVal (neg, ds)⟩) := by
  have e1 : ("GT".toList ++ (renderTok (neg, ds) ++ c :: rest) : Str)
      = 'G' :: 'T' :: (renderTok (neg, ds) ++ c :: rest) := rfl
  rw [e1, create_main_gt]
  have hpe : renderTok (neg, ds) ++ c :: rest ≠ [] := by
    intro hnil
    exact List.noConfusion (List.append_eq_nil.mp hnil).2
  have hst : stoi (renderTok (neg, ds) ++ c :: rest) = some (tokVal (neg, ds)) := by
    unfold stoi
    rw [extractInt_token neg ds (c :: rest) h1 h2 h3 h4 (Or.inr ⟨c, rest, rfl, hc⟩)]
    rfl
  simp only [gtCreator, if_neg hpe, hst]

theorem gt_param_trailing_junk_witness :
    (("5".toList : Str) ≠ [])
    ∧ (∀ d ∈ ("5".toList : Str), d.isDigit = true)
    ∧ intMin ≤ tokVal (false, "5".toList) ∧ tokVal (false, "5".toList) ≤ intMax
    ∧ ('a'.isDigit = false)
    ∧ FilterFactory.create mainRegistry
        ("GT".toList ++ (renderTok (false, "5".toList) ++ 'a' :: "bc".toList))
        = Except.ok (INumberFilter.gt ⟨tokVal (false, "5".toList)⟩) :=
  ⟨by decide, by decide, by decide, by decide, by decide,
    gt_param_trailing_junk false ("5".toList) 'a' ("bc".toList)
      (by decide) (by decide) (by decide) (by decide) (by decide)⟩
